import Mathlib

/-!
# Verification of the contact-scraper application

A shallow embedding of `src/app.py` (a Tkinter application that fetches a
web page, extracts contact records with two regular expressions, displays
them and stores them in SQLite), together with theorems checking the
natural-language specification against the code.

The embedding follows the source:

* `parse_contacts`  — the regex-based extractor (`parse_contacts`, lines 60-106);
  the two regular expressions are compiled into a token list (`teacherToks`,
  `tableToks`) interpreted by a backtracking matcher (`matchToksF`) with
  Python `re` semantics: lazy `.*?` tries shortest first, greedy `+`/`*`
  try longest first, `re.DOTALL` makes `.` match any character including
  newlines, and `finditer` yields non-overlapping matches scanning left to
  right.
* `save_to_database` — the SQLite insert loop with `IntegrityError` skip
  (lines 34-57), over an explicit table model `DB`.
* `scrape_contacts`  — the HTTP fetch with its exception taxonomy
  (lines 109-129), over an abstract outcome of the single GET.
* `fetch_contacts`   — the button handler (lines 195-216) as a pure state
  transition that also reports the notifications shown and the GET
  requests issued.
* `setup_database_run` / `save_to_database_run` — the control-flow of the
  `try`/`except`/`finally` blocks of `setup_database` and
  `save_to_database`, tracking which dialogs are shown, whether an
  exception escapes the function and whether the connection is closed.

The matcher uses an explicit fuel argument so that it is structurally
recursive (and hence evaluates inside the kernel).  Every recursive call
strictly decreases `s.length + toks.length`, so the fuel
`s.length + toks.length + 1` used by `matchRun` can never run out.
-/

/-- ASCII whitespace as recognised by Python's `\s` and `str.strip()`
(space, tab, newline, carriage return, form feed, vertical tab; the
unicode whitespace code points, irrelevant to the claims, are omitted). -/
def isPySpace (c : Char) : Bool :=
  c == ' ' || c == '\t' || c == '\n' || c == '\r' || c == '\x0b' || c == '\x0c'

/-- The quote characters of the character class in the patterns. -/
def isQuote (c : Char) : Bool :=
  c == '"' || c == '\''

/-- The character class of the email group in the patterns. -/
def isNonQuote (c : Char) : Bool :=
  !(isQuote c)

/-- Drop leading whitespace (the left half of Python `str.strip()`). -/
def trimLeft (l : List Char) : List Char :=
  l.dropWhile isPySpace

/-- Drop trailing whitespace (the right half of Python `str.strip()`). -/
def trimRight (l : List Char) : List Char :=
  (l.reverse.dropWhile isPySpace).reverse

/-- Python `str.strip()` on a list of characters. -/
def stripList (l : List Char) : List Char :=
  trimRight (trimLeft l)

/-- Python `str.strip()` on a string. -/
def stripStr (s : String) : String :=
  String.mk (stripList s.data)

/-- The normalized contact shape produced by `parse_contacts`:
`{'name': ..., 'title': ..., 'email': ...}`. -/
structure Record where
  name : String
  title : String
  email : String
deriving DecidableEq, Repr

/-- One field of a record: `x.strip()` followed by the
`x if x else 'N/A'` substitution from `parse_contacts`. -/
def normField (l : List Char) : String :=
  let s := stripList l
  if s = [] then "N/A" else String.mk s

/-- Build the record appended by `parse_contacts` from the three raw
captured groups. -/
def mkRecord (n t e : List Char) : Record :=
  ⟨normField n, normField t, normField e⟩

/-! ## The regex matcher

The two patterns in `parse_contacts` use only these constructs: literal
characters, one-character classes (`["\']`), greedy repetition of a class
(`\s+`, `\s*`, `[^"\']+`), the lazy any-character repetition `.*?` (with
`re.DOTALL`), capturing groups whose body is one of those repetitions, and
the back-reference `(?P=email)`.  A pattern is a list of tokens; group `0`
is `name`, group `1` is `title`, group `2` is `email`. -/

/-- One token of a compiled pattern.  The `...Acc` forms carry the
(reversed) characters consumed so far by a capturing repetition; the
top-level patterns only use them with an empty accumulator. -/
inductive Tok where
  /-- a literal character -/
  | lit (c : Char) : Tok
  /-- a one-character class such as `["\']` -/
  | cls (f : Char → Bool) : Tok
  /-- greedy `f+` (no capture), e.g. `\s+` -/
  | plusGreedy (f : Char → Bool) : Tok
  /-- greedy `f*` (no capture), e.g. `\s*` -/
  | starGreedy (f : Char → Bool) : Tok
  /-- lazy `.*?` under `re.DOTALL` (no capture) -/
  | lazyAny : Tok
  /-- lazy capturing group `(?P<i>.*?)`, with accumulator -/
  | groupLazyAcc (i : Nat) (acc : List Char) : Tok
  /-- greedy capturing group `(?P<i>f+)` -/
  | groupPlus (i : Nat) (f : Char → Bool) : Tok
  /-- state of `groupPlus` after consuming `acc.reverse` -/
  | groupPlusAcc (i : Nat) (f : Char → Bool) (acc : List Char) : Tok
  /-- the back-reference `(?P=i)` -/
  | backref (i : Nat) : Tok

/-- The capture environment of a match. -/
def Caps : Type := Nat → Option (List Char)

/-- No group has matched yet. -/
def capsEmpty : Caps := fun _ => none

/-- Record the text captured by group `i`. -/
def setCap (i : Nat) (v : List Char) (caps : Caps) : Caps :=
  fun j => if j = i then some v else caps j

/-- Biased choice: the first alternative that matches wins (the
backtracking order of Python's `re`). -/
def obr {α : Type} (a b : Option α) : Option α :=
  match a with
  | some r => some r
  | none => b

/-- Remove the prefix `w` from `s` (used by the back-reference). -/
def dropPre : List Char → List Char → Option (List Char)
  | [], s => some s
  | _ :: _, [] => none
  | c :: w, d :: s => if d = c then dropPre w s else none

/-- The backtracking matcher.  `matchToksF fuel toks s caps` tries to match
the token list `toks` against a prefix of `s`; on success it returns the
final capture environment and the unconsumed suffix.  The result chosen is
the first one in Python's backtracking order (lazy repetitions try the
shortest extension first, greedy ones the longest).  Every recursive call
strictly decreases `s.length + toks.length`, so fuel
`s.length + toks.length + 1` never runs out. -/
def matchToksF : Nat → List Tok → List Char → Caps → Option (Caps × List Char)
  | 0, _, _, _ => none
  | Nat.succ fl, toks, s, caps =>
    match toks with
    | [] => some (caps, s)
    | .lit c :: ts =>
      match s with
      | [] => none
      | d :: s' => if d = c then matchToksF fl ts s' caps else none
    | .cls f :: ts =>
      match s with
      | [] => none
      | d :: s' => if f d then matchToksF fl ts s' caps else none
    | .plusGreedy f :: ts =>
      match s with
      | [] => none
      | d :: s' => if f d then matchToksF fl (.starGreedy f :: ts) s' caps else none
    | .starGreedy f :: ts =>
      match s with
      | [] => matchToksF fl ts [] caps
      | d :: s' =>
        if f d then
          obr (matchToksF fl (.starGreedy f :: ts) s' caps) (matchToksF fl ts s caps)
        else matchToksF fl ts s caps
    | .lazyAny :: ts =>
      obr (matchToksF fl ts s caps)
        (match s with
         | [] => none
         | _ :: s' => matchToksF fl (.lazyAny :: ts) s' caps)
    | .groupLazyAcc i acc :: ts =>
      obr (matchToksF fl ts s (setCap i acc.reverse caps))
        (match s with
         | [] => none
         | c :: s' => matchToksF fl (.groupLazyAcc i (c :: acc) :: ts) s' caps)
    | .groupPlus i f :: ts =>
      match s with
      | [] => none
      | d :: s' => if f d then matchToksF fl (.groupPlusAcc i f [d] :: ts) s' caps else none
    | .groupPlusAcc i f acc :: ts =>
      match s with
      | [] => matchToksF fl ts [] (setCap i acc.reverse caps)
      | c :: s' =>
        if f c then
          obr (matchToksF fl (.groupPlusAcc i f (c :: acc) :: ts) s' caps)
            (matchToksF fl ts s (setCap i acc.reverse caps))
        else matchToksF fl ts s (setCap i acc.reverse caps)
    | .backref i :: ts =>
      match caps i with
      | none => none
      | some w =>
        match dropPre w s with
        | none => none
        | some s' => matchToksF fl ts s' caps

/-- Run the matcher with always-sufficient fuel (one attempt, anchored at
the start of `s`). -/
def matchRun (toks : List Tok) (s : List Char) (caps : Caps) : Option (Caps × List Char) :=
  matchToksF (s.length + toks.length + 1) toks s caps

/-- `re.finditer` with fuel: try a match at each position left to right;
on success yield the captures and continue after the consumed span
(advancing at least one character, as Python does for an empty match).
Every recursive call strictly decreases `s.length`, so fuel
`s.length + 1` never runs out. -/
def findAllF (toks : List Tok) : Nat → List Char → List Caps
  | 0, _ => []
  | Nat.succ fl, s =>
    match matchRun toks s capsEmpty with
    | some (caps, rest) =>
      if rest.length < s.length then caps :: findAllF toks fl rest
      else
        match s with
        | [] => [caps]
        | _ :: s' => caps :: findAllF toks fl s'
    | none =>
      match s with
      | [] => []
      | _ :: s' => findAllF toks fl s'

/-- `re.finditer(pattern, s)`, returning the capture environment of every
match in document order. -/
def findAll (toks : List Tok) (s : List Char) : List Caps :=
  findAllF toks (s.length + 1) s

/-- A run of literal tokens, one per character of `u`. -/
def lits (u : String) : List Tok :=
  u.data.map Tok.lit

/-- The primary pattern of `parse_contacts` (source lines 70-76):

`<div\s+class=["\']teacher["\'].*?>.*?`
`<p\s+class=["\']name["\'].*?>(?P<name>.*?)</p>.*?`
`<p\s+class=["\']title["\'].*?>(?P<title>.*?)</p>.*?`
`<a\s+href=["\']mailto:(?P<email>[^"\']+)["\'].*?>(?P=email)</a>.*?</div>`

compiled with `re.DOTALL`; groups: `name` = 0, `title` = 1, `email` = 2. -/
def teacherToks : List Tok :=
  lits "<div" ++ .plusGreedy isPySpace :: lits "class=" ++ .cls isQuote ::
  lits "teacher" ++ .cls isQuote :: .lazyAny :: .lit '>' :: .lazyAny ::
  lits "<p" ++ .plusGreedy isPySpace :: lits "class=" ++ .cls isQuote ::
  lits "name" ++ .cls isQuote :: .lazyAny :: .lit '>' :: .groupLazyAcc 0 [] ::
  lits "</p>" ++ .lazyAny ::
  lits "<p" ++ .plusGreedy isPySpace :: lits "class=" ++ .cls isQuote ::
  lits "title" ++ .cls isQuote :: .lazyAny :: .lit '>' :: .groupLazyAcc 1 [] ::
  lits "</p>" ++ .lazyAny ::
  lits "<a" ++ .plusGreedy isPySpace :: lits "href=" ++ .cls isQuote ::
  lits "mailto:" ++ .groupPlus 2 isNonQuote :: .cls isQuote :: .lazyAny :: .lit '>' ::
  .backref 2 :: lits "</a>" ++ .lazyAny :: lits "</div>"

/-- The fallback pattern of `parse_contacts` (source lines 91-94):

`<tr.*?>\s*<td.*?>(?P<name>.*?)</td>\s*<td.*?>(?P<title>.*?)</td>\s*`
`<td.*?>.*?mailto:(?P<email>[^"\']+)["\'].*?</td>`

compiled with `re.DOTALL`; groups: `name` = 0, `title` = 1, `email` = 2. -/
def tableToks : List Tok :=
  lits "<tr" ++ .lazyAny :: .lit '>' :: .starGreedy isPySpace ::
  lits "<td" ++ .lazyAny :: .lit '>' :: .groupLazyAcc 0 [] ::
  lits "</td>" ++ .starGreedy isPySpace ::
  lits "<td" ++ .lazyAny :: .lit '>' :: .groupLazyAcc 1 [] ::
  lits "</td>" ++ .starGreedy isPySpace ::
  lits "<td" ++ .lazyAny :: .lit '>' :: .lazyAny ::
  lits "mailto:" ++ .groupPlus 2 isNonQuote :: .cls isQuote :: .lazyAny ::
  lits "</td>"

/-- Read the three named groups of one match and build the record that the
loop body of `parse_contacts` appends (in a successful match of either
pattern all three groups have participated). -/
def capsToRecord (caps : Caps) : Option Record :=
  match caps 0, caps 1, caps 2 with
  | some n, some t, some e => some (mkRecord n t e)
  | _, _, _ => none

/-- The records produced by the primary (teacher-container) pattern. -/
def primaryRecords (html : String) : List Record :=
  (findAll teacherToks html.data).filterMap capsToRecord

/-- The records produced by the fallback (tabular) pattern. -/
def tableRecords (html : String) : List Record :=
  (findAll tableToks html.data).filterMap capsToRecord

/-- `parse_contacts` (source lines 60-106): apply the primary pattern; if
it produced no records, apply the fallback pattern. -/
def parse_contacts (html : String) : List Record :=
  let contacts := primaryRecords html
  if contacts = [] then tableRecords html else contacts

/-! ## Declarative semantics of a match

`TokSem t caps caps' chunk` says that token `t` can consume exactly the
characters `chunk`, turning the capture environment `caps` into `caps'`;
`ListSem` chains it over a token list.  The soundness theorem below shows
every successful run of the matcher is of this shape, which lets the
structure of a matched span be read off from the pattern. -/

/-- What one token consumes, and how it updates the captures. -/
inductive TokSem : Tok → Caps → Caps → List Char → Prop where
  | lit {c : Char} {caps : Caps} : TokSem (.lit c) caps caps [c]
  | cls {f : Char → Bool} {c : Char} {caps : Caps} (h : f c = true) :
      TokSem (.cls f) caps caps [c]
  | plusGreedy {f : Char → Bool} {chunk : List Char} {caps : Caps}
      (hne : chunk ≠ []) (hall : ∀ c ∈ chunk, f c = true) :
      TokSem (.plusGreedy f) caps caps chunk
  | starGreedy {f : Char → Bool} {chunk : List Char} {caps : Caps}
      (hall : ∀ c ∈ chunk, f c = true) :
      TokSem (.starGreedy f) caps caps chunk
  | lazyAny {chunk : List Char} {caps : Caps} : TokSem .lazyAny caps caps chunk
  | groupLazyAcc {i : Nat} {acc chunk : List Char} {caps : Caps} :
      TokSem (.groupLazyAcc i acc) caps (setCap i (acc.reverse ++ chunk) caps) chunk
  | groupPlus {i : Nat} {f : Char → Bool} {chunk : List Char} {caps : Caps}
      (hne : chunk ≠ []) (hall : ∀ c ∈ chunk, f c = true) :
      TokSem (.groupPlus i f) caps (setCap i chunk caps) chunk
  | groupPlusAcc {i : Nat} {f : Char → Bool} {acc chunk : List Char} {caps : Caps}
      (hall : ∀ c ∈ chunk, f c = true) :
      TokSem (.groupPlusAcc i f acc) caps (setCap i (acc.reverse ++ chunk) caps) chunk
  | backref {i : Nat} {chunk : List Char} {caps : Caps} (h : caps i = some chunk) :
      TokSem (.backref i) caps caps chunk

/-- What a token list consumes: the concatenation of per-token chunks. -/
inductive ListSem : List Tok → Caps → Caps → List Char → Prop where
  | nil {caps : Caps} : ListSem [] caps caps []
  | cons {t : Tok} {ts : List Tok} {caps caps' caps'' : Caps} {chunk rest : List Char}
      (h : TokSem t caps caps' chunk) (hs : ListSem ts caps' caps'' rest) :
      ListSem (t :: ts) caps caps'' (chunk ++ rest)

theorem dropPre_sound : ∀ (w s s' : List Char), dropPre w s = some s' → s = w ++ s' := by
  intro w
  induction w with
  | nil => intro s s' h; simpa [dropPre] using h
  | cons c w ih =>
    intro s s' h
    cases s with
    | nil => simp [dropPre] at h
    | cons d s =>
      by_cases hdc : d = c
      · subst hdc
        simp only [dropPre, if_pos rfl] at h
        simpa using ih s s' h
      · simp [dropPre, hdc] at h


/-- Soundness of the matcher: a successful run consumes a prefix of the
input that realizes the pattern's declarative semantics. -/
theorem matchToksF_sound :
    ∀ (fuel : Nat) (toks : List Tok) (s : List Char) (caps caps' : Caps) (rest : List Char),
      matchToksF fuel toks s caps = some (caps', rest) →
      ∃ consumed, s = consumed ++ rest ∧ ListSem toks caps caps' consumed := by
  intro fuel
  induction fuel with
  | zero => intro toks s caps caps' rest h; simp [matchToksF] at h
  | succ fl ih =>
    intro toks s caps caps' rest h
    cases toks with
    | nil =>
      simp only [matchToksF, Option.some.injEq, Prod.mk.injEq] at h
      refine ⟨[], by simp [h.2], ?_⟩
      rw [← h.1]
      exact ListSem.nil
    | cons t ts =>
      cases t with
      | lit c =>
        cases s with
        | nil => simp [matchToksF] at h
        | cons d s =>
          by_cases hdc : d = c
          · subst hdc
            simp only [matchToksF, if_pos rfl] at h
            obtain ⟨consumed, hsplit, hsem⟩ := ih ts s caps caps' rest h
            exact ⟨d :: consumed, by simp [hsplit], ListSem.cons TokSem.lit hsem⟩
          · simp [matchToksF, hdc] at h
      | cls f =>
        cases s with
        | nil => simp [matchToksF] at h
        | cons d s =>
          cases hfd : f d with
          | false => simp [matchToksF, hfd] at h
          | true =>
            simp [matchToksF, hfd] at h
            obtain ⟨consumed, hsplit, hsem⟩ := ih ts s caps caps' rest h
            exact ⟨d :: consumed, by simp [hsplit], ListSem.cons (TokSem.cls hfd) hsem⟩
      | plusGreedy f =>
        cases s with
        | nil => simp [matchToksF] at h
        | cons d s =>
          cases hfd : f d with
          | false => simp [matchToksF, hfd] at h
          | true =>
            simp [matchToksF, hfd] at h
            obtain ⟨consumed, hsplit, hsem⟩ := ih (Tok.starGreedy f :: ts) s caps caps' rest h
            cases hsem with
            | @cons _ _ _ mid _ chunk tail htok hrest =>
              cases htok with
              | starGreedy hall =>
                refine ⟨d :: (chunk ++ tail), by simp [hsplit],
                  ListSem.cons (@TokSem.plusGreedy f (d :: chunk) caps (by simp) ?_) hrest⟩
                intro c hc
                rcases List.mem_cons.mp hc with hc | hc
                · exact hc ▸ hfd
                · exact hall c hc
      | starGreedy f =>
        cases s with
        | nil =>
          simp only [matchToksF] at h
          obtain ⟨consumed, hsplit, hsem⟩ := ih ts [] caps caps' rest h
          obtain ⟨hc, -⟩ := List.append_eq_nil.mp hsplit.symm
          subst hc
          exact ⟨[], hsplit, ListSem.cons (@TokSem.starGreedy f [] caps (by simp)) hsem⟩
        | cons d s =>
          cases hfd : f d with
          | false =>
            simp [matchToksF, hfd] at h
            obtain ⟨consumed, hsplit, hsem⟩ := ih ts (d :: s) caps caps' rest h
            exact ⟨consumed, hsplit,
              ListSem.cons (@TokSem.starGreedy f [] caps (by simp)) hsem⟩
          | true =>
            simp [matchToksF, hfd] at h
            cases hdeep : matchToksF fl (Tok.starGreedy f :: ts) s caps with
            | some r =>
              obtain ⟨rc, rr⟩ := r
              rw [hdeep] at h
              simp only [obr, Option.some.injEq, Prod.mk.injEq] at h
              obtain ⟨h1, h2⟩ := h
              subst h1
              subst h2
              obtain ⟨consumed, hsplit, hsem⟩ := ih (Tok.starGreedy f :: ts) s caps _ _ hdeep
              cases hsem with
              | @cons _ _ _ mid _ chunk tail htok hrest =>
                cases htok with
                | starGreedy hall =>
                  refine ⟨d :: (chunk ++ tail), by simp [hsplit],
                    ListSem.cons (@TokSem.starGreedy f (d :: chunk) caps ?_) hrest⟩
                  intro c hc
                  rcases List.mem_cons.mp hc with hc | hc
                  · exact hc ▸ hfd
                  · exact hall c hc
            | none =>
              rw [hdeep] at h
              simp only [obr] at h
              obtain ⟨consumed, hsplit, hsem⟩ := ih ts (d :: s) caps caps' rest h
              exact ⟨consumed, hsplit,
                ListSem.cons (@TokSem.starGreedy f [] caps (by simp)) hsem⟩
      | lazyAny =>
        simp only [matchToksF] at h
        cases hfirst : matchToksF fl ts s caps with
        | some r =>
          obtain ⟨rc, rr⟩ := r
          rw [hfirst] at h
          simp only [obr, Option.some.injEq, Prod.mk.injEq] at h
          obtain ⟨h1, h2⟩ := h
          subst h1
          subst h2
          obtain ⟨consumed, hsplit, hsem⟩ := ih ts s caps _ _ hfirst
          exact ⟨consumed, hsplit, ListSem.cons (@TokSem.lazyAny [] caps) hsem⟩
        | none =>
          rw [hfirst] at h
          simp only [obr] at h
          cases s with
          | nil => exact Option.noConfusion h
          | cons d s =>
            obtain ⟨consumed, hsplit, hsem⟩ := ih (Tok.lazyAny :: ts) s caps caps' rest h
            cases hsem with
            | @cons _ _ _ mid _ chunk tail htok hrest =>
              cases htok with
              | lazyAny =>
                exact ⟨d :: (chunk ++ tail), by simp [hsplit],
                  ListSem.cons (@TokSem.lazyAny (d :: chunk) caps) hrest⟩
      | groupLazyAcc i acc =>
        simp only [matchToksF] at h
        cases hfirst : matchToksF fl ts s (setCap i acc.reverse caps) with
        | some r =>
          obtain ⟨rc, rr⟩ := r
          rw [hfirst] at h
          simp only [obr, Option.some.injEq, Prod.mk.injEq] at h
          obtain ⟨h1, h2⟩ := h
          subst h1
          subst h2
          obtain ⟨consumed, hsplit, hsem⟩ := ih ts s (setCap i acc.reverse caps) _ _ hfirst
          refine ⟨consumed, hsplit, ?_⟩
          have hstep : TokSem (.groupLazyAcc i acc) caps (setCap i acc.reverse caps) [] := by
            simpa using @TokSem.groupLazyAcc i acc [] caps
          exact ListSem.cons hstep hsem
        | none =>
          rw [hfirst] at h
          simp only [obr] at h
          cases s with
          | nil => exact Option.noConfusion h
          | cons d s =>
            obtain ⟨consumed, hsplit, hsem⟩ :=
              ih (Tok.groupLazyAcc i (d :: acc) :: ts) s caps caps' rest h
            cases hsem with
            | @cons _ _ _ mid _ chunk tail htok hrest =>
              cases htok with
              | groupLazyAcc =>
                refine ⟨d :: (chunk ++ tail), by simp [hsplit], ?_⟩
                have hstep : TokSem (.groupLazyAcc i acc) caps
                    (setCap i ((d :: acc).reverse ++ chunk) caps) (d :: chunk) := by
                  have h2 := @TokSem.groupLazyAcc i acc (d :: chunk) caps
                  simpa [List.append_assoc] using h2
                exact ListSem.cons hstep hrest
      | groupPlus i f =>
        cases s with
        | nil => simp [matchToksF] at h
        | cons d s =>
          cases hfd : f d with
          | false => simp [matchToksF, hfd] at h
          | true =>
            simp [matchToksF, hfd] at h
            obtain ⟨consumed, hsplit, hsem⟩ :=
              ih (Tok.groupPlusAcc i f [d] :: ts) s caps caps' rest h
            cases hsem with
            | @cons _ _ _ mid _ chunk tail htok hrest =>
              cases htok with
              | groupPlusAcc hall =>
                refine ⟨d :: (chunk ++ tail), by simp [hsplit], ?_⟩
                have hstep : TokSem (.groupPlus i f) caps
                    (setCap i ([d].reverse ++ chunk) caps) (d :: chunk) := by
                  have h2 : TokSem (.groupPlus i f) caps
                      (setCap i (d :: chunk) caps) (d :: chunk) := by
                    refine TokSem.groupPlus (by simp) ?_
                    intro c hc
                    rcases List.mem_cons.mp hc with hc | hc
                    · exact hc ▸ hfd
                    · exact hall c hc
                  simpa using h2
                exact ListSem.cons hstep hrest
      | groupPlusAcc i f acc =>
        cases s with
        | nil =>
          simp only [matchToksF] at h
          obtain ⟨consumed, hsplit, hsem⟩ := ih ts [] (setCap i acc.reverse caps) caps' rest h
          obtain ⟨hc, -⟩ := List.append_eq_nil.mp hsplit.symm
          subst hc
          refine ⟨[], hsplit, ?_⟩
          have hstep : TokSem (.groupPlusAcc i f acc) caps (setCap i acc.reverse caps) [] := by
            simpa using @TokSem.groupPlusAcc i f acc [] caps (by simp)
          exact ListSem.cons hstep hsem
        | cons d s =>
          cases hfd : f d with
          | false =>
            simp [matchToksF, hfd] at h
            obtain ⟨consumed, hsplit, hsem⟩ :=
              ih ts (d :: s) (setCap i acc.reverse caps) caps' rest h
            refine ⟨consumed, hsplit, ?_⟩
            have hstep : TokSem (.groupPlusAcc i f acc) caps (setCap i acc.reverse caps) [] := by
              simpa using @TokSem.groupPlusAcc i f acc [] caps (by simp)
            exact ListSem.cons hstep hsem
          | true =>
            simp [matchToksF, hfd] at h
            cases hdeep : matchToksF fl (Tok.groupPlusAcc i f (d :: acc) :: ts) s caps with
            | some r =>
              obtain ⟨rc, rr⟩ := r
              rw [hdeep] at h
              simp only [obr, Option.some.injEq, Prod.mk.injEq] at h
              obtain ⟨h1, h2⟩ := h
              subst h1
              subst h2
              obtain ⟨consumed, hsplit, hsem⟩ :=
                ih (Tok.groupPlusAcc i f (d :: acc) :: ts) s caps _ _ hdeep
              cases hsem with
              | @cons _ _ _ mid _ chunk tail htok hrest =>
                cases htok with
                | groupPlusAcc hall =>
                  refine ⟨d :: (chunk ++ tail), by simp [hsplit], ?_⟩
                  have hstep : TokSem (.groupPlusAcc i f acc) caps
                      (setCap i ((d :: acc).reverse ++ chunk) caps) (d :: chunk) := by
                    have h2 := @TokSem.groupPlusAcc i f acc (d :: chunk) caps ?_
                    · simpa [List.append_assoc] using h2
                    · intro c hc
                      rcases List.mem_cons.mp hc with hc | hc
                      · exact hc ▸ hfd
                      · exact hall c hc
                  exact ListSem.cons hstep hrest
            | none =>
              rw [hdeep] at h
              simp only [obr] at h
              obtain ⟨consumed, hsplit, hsem⟩ :=
                ih ts (d :: s) (setCap i acc.reverse caps) caps' rest h
              refine ⟨consumed, hsplit, ?_⟩
              have hstep : TokSem (.groupPlusAcc i f acc) caps (setCap i acc.reverse caps) [] := by
                simpa using @TokSem.groupPlusAcc i f acc [] caps (by simp)
              exact ListSem.cons hstep hsem
      | backref i =>
        cases hcap : caps i with
        | none => simp [matchToksF, hcap] at h
        | some w =>
          cases hdrop : dropPre w s with
          | none => simp [matchToksF, hcap, hdrop] at h
          | some s2 =>
            simp only [matchToksF, hcap, hdrop] at h
            obtain ⟨consumed, hsplit, hsem⟩ := ih ts s2 caps caps' rest h
            refine ⟨w ++ consumed, ?_, ListSem.cons (TokSem.backref hcap) hsem⟩
            rw [dropPre_sound w s s2 hdrop, hsplit, List.append_assoc]

/-- Every capture environment yielded by the scanning loop comes from a
successful run of the matcher on some suffix of the input. -/
theorem findAllF_mem :
    ∀ (fuel : Nat) (toks : List Tok) (s : List Char) (caps : Caps),
      caps ∈ findAllF toks fuel s →
      ∃ pre sfx rest, s = pre ++ sfx ∧ matchRun toks sfx capsEmpty = some (caps, rest) := by
  intro fuel
  induction fuel with
  | zero => intro toks s caps h; simp [findAllF] at h
  | succ fl ih =>
    intro toks s caps h
    simp only [findAllF] at h
    split at h
    case _ rc rest0 hm =>
      split at h
      case _ hlt =>
        rcases List.mem_cons.mp h with hh | hh
        · exact ⟨[], s, rest0, by simp, by rw [hm, hh]⟩
        · obtain ⟨pre, sfx, rest, hsp, hmr⟩ := ih toks rest0 caps hh
          obtain ⟨consumed, hs, -⟩ := matchToksF_sound _ toks s capsEmpty rc rest0 hm
          exact ⟨consumed ++ pre, sfx, rest, by rw [hs, hsp, List.append_assoc], hmr⟩
      case _ hlt =>
        cases s with
        | nil =>
          have hcr : caps = rc := by simpa using h
          exact ⟨[], [], rest0, by simp, by rw [hm, hcr]⟩
        | cons d s' =>
          rcases List.mem_cons.mp h with hh | hh
          · exact ⟨[], d :: s', rest0, by simp, by rw [hm, hh]⟩
          · obtain ⟨pre, sfx, rest, hsp, hmr⟩ := ih toks s' caps hh
            exact ⟨d :: pre, sfx, rest, by simp [hsp], hmr⟩
    case _ hm =>
      cases s with
      | nil => simp at h
      | cons d s' =>
        obtain ⟨pre, sfx, rest, hsp, hmr⟩ := ih toks s' caps h
        exact ⟨d :: pre, sfx, rest, by simp [hsp], hmr⟩

/-- Inversion of the record builder: a produced record is `mkRecord` of the
three captured groups. -/
theorem capsToRecord_eq :
    ∀ (caps : Caps) (r : Record), capsToRecord caps = some r →
      ∃ n t e, caps 0 = some n ∧ caps 1 = some t ∧ caps 2 = some e ∧ r = mkRecord n t e := by
  intro caps r h
  cases h0 : caps 0 with
  | none => simp [capsToRecord, h0] at h
  | some n =>
    cases h1 : caps 1 with
    | none => simp [capsToRecord, h0, h1] at h
    | some t =>
      cases h2 : caps 2 with
      | none => simp [capsToRecord, h0, h1, h2] at h
      | some e =>
        simp only [capsToRecord, h0, h1, h2, Option.some.injEq] at h
        exact ⟨n, t, e, rfl, rfl, rfl, h.symm⟩

/-- Every record returned by `parse_contacts` is built by `capsToRecord`
from the captures of one match (of whichever pattern ran). -/
theorem parse_contacts_mem :
    ∀ (html : String) (r : Record), r ∈ parse_contacts html →
      ∃ caps, capsToRecord caps = some r := by
  intro html r hr
  simp only [parse_contacts] at hr
  by_cases hp : primaryRecords html = []
  · rw [if_pos hp] at hr
    simp only [tableRecords, List.mem_filterMap] at hr
    obtain ⟨caps, -, hc⟩ := hr
    exact ⟨caps, hc⟩
  · rw [if_neg hp] at hr
    simp only [primaryRecords, List.mem_filterMap] at hr
    obtain ⟨caps, -, hc⟩ := hr
    exact ⟨caps, hc⟩

theorem dropWhileIdem (p : Char → Bool) (l : List Char) :
    List.dropWhile p (List.dropWhile p l) = List.dropWhile p l := by
  induction l with
  | nil => simp
  | cons a t ih =>
    by_cases hpa : p a
    · simp [List.dropWhile_cons, hpa, ih]
    · simp [List.dropWhile_cons, hpa]

theorem trimRightIdem (l : List Char) : trimRight (trimRight l) = trimRight l := by
  simp [trimRight, List.reverse_reverse, dropWhileIdem]

theorem dropWhile_append_single (p : Char → Bool) (c : Char) (hc : p c = false) :
    ∀ xs : List Char, ∃ ys, List.dropWhile p (xs ++ [c]) = ys ++ [c] := by
  intro xs
  induction xs with
  | nil => exact ⟨[], by simp [List.dropWhile_cons, hc]⟩
  | cons x xs ih =>
    by_cases hx : p x
    · obtain ⟨ys, hy⟩ := ih
      exact ⟨ys, by simp [List.dropWhile_cons, hx, hy]⟩
    · exact ⟨x :: xs, by simp [List.dropWhile_cons, hx]⟩

theorem trimLeft_trimRight (x : List Char) (hx : trimLeft x = x) :
    trimLeft (trimRight x) = trimRight x := by
  cases x with
  | nil => simp [trimRight, trimLeft]
  | cons a t =>
    have ha : isPySpace a = false := by
      by_cases ha' : isPySpace a = true
      · exfalso
        simp only [trimLeft, List.dropWhile_cons, ha', if_true] at hx
        have hlen : (List.dropWhile isPySpace t).length ≤ t.length :=
          (List.dropWhile_sublist isPySpace).length_le
        rw [hx] at hlen
        simp at hlen
      · simpa using ha'
    obtain ⟨ys, hy⟩ := dropWhile_append_single isPySpace a ha t.reverse
    simp only [trimRight, trimLeft, List.reverse_cons, hy, List.reverse_append,
      List.reverse_cons, List.reverse_nil, List.nil_append, List.singleton_append,
      List.dropWhile_cons, ha, if_false]
    simp [ha]

theorem stripList_idem (l : List Char) : stripList (stripList l) = stripList l := by
  have h1 : trimLeft (trimRight (trimLeft l)) = trimRight (trimLeft l) :=
    trimLeft_trimRight (trimLeft l) (dropWhileIdem isPySpace l)
  simp only [stripList, h1, trimRightIdem]

theorem normField_ne_empty (l : List Char) : normField l ≠ "" := by
  simp only [normField]
  by_cases h : stripList l = []
  · simp [h]
  · simp only [h, if_neg, if_false]
    intro hcon
    apply h
    have := congrArg String.data hcon
    simpa using this

theorem stripStr_normField (l : List Char) : stripStr (normField l) = normField l := by
  by_cases h : stripList l = []
  · have hna : normField l = "N/A" := by simp [normField, h]
    rw [hna]
    decide
  · have hn : normField l = String.mk (stripList l) := by simp [normField, h]
    rw [hn]
    exact congrArg String.mk (stripList_idem l)

/-! ## Inversion lemmas for `ListSem`

These read the structure of a matched span off the head token. -/

theorem semNil {caps caps' : Caps} {consumed : List Char}
    (h : ListSem [] caps caps' consumed) : caps' = caps ∧ consumed = [] := by
  cases h
  exact ⟨rfl, rfl⟩

theorem semLit {c : Char} {ts : List Tok} {caps caps' : Caps} {consumed : List Char}
    (h : ListSem (.lit c :: ts) caps caps' consumed) :
    ∃ c2, consumed = c :: c2 ∧ ListSem ts caps caps' c2 := by
  cases h with
  | @cons _ _ _ mid _ chunk tail htok hrest =>
    cases htok with
    | lit => exact ⟨tail, rfl, hrest⟩

theorem semLitsAux : ∀ (w : List Char) (ts : List Tok) (caps caps' : Caps) (consumed : List Char),
    ListSem (w.map Tok.lit ++ ts) caps caps' consumed →
    ∃ c2, consumed = w ++ c2 ∧ ListSem ts caps caps' c2 := by
  intro w
  induction w with
  | nil => intro ts caps caps' consumed h; exact ⟨consumed, rfl, h⟩
  | cons c w ih =>
    intro ts caps caps' consumed h
    simp only [List.map_cons, List.cons_append] at h
    obtain ⟨c2, hc2, hrest⟩ := semLit h
    obtain ⟨c3, hc3, hrest3⟩ := ih ts _ _ c2 hrest
    exact ⟨c3, by simp [hc2, hc3], hrest3⟩

theorem semLits {u : String} {ts : List Tok} {caps caps' : Caps} {consumed : List Char}
    (h : ListSem (lits u ++ ts) caps caps' consumed) :
    ∃ c2, consumed = u.data ++ c2 ∧ ListSem ts caps caps' c2 :=
  semLitsAux u.data ts caps caps' consumed h

theorem semCls {f : Char → Bool} {ts : List Tok} {caps caps' : Caps} {consumed : List Char}
    (h : ListSem (.cls f :: ts) caps caps' consumed) :
    ∃ q c2, f q = true ∧ consumed = q :: c2 ∧ ListSem ts caps caps' c2 := by
  cases h with
  | @cons _ _ _ mid _ chunk tail htok hrest =>
    cases htok with
    | cls hq => exact ⟨_, tail, hq, rfl, hrest⟩

theorem semPlusG {f : Char → Bool} {ts : List Tok} {caps caps' : Caps} {consumed : List Char}
    (h : ListSem (.plusGreedy f :: ts) caps caps' consumed) :
    ∃ w c2, w ≠ [] ∧ (∀ c ∈ w, f c = true) ∧ consumed = w ++ c2 ∧ ListSem ts caps caps' c2 := by
  cases h with
  | @cons _ _ _ mid _ chunk tail htok hrest =>
    cases htok with
    | plusGreedy hne hall => exact ⟨chunk, tail, hne, hall, rfl, hrest⟩

theorem semLazy {ts : List Tok} {caps caps' : Caps} {consumed : List Char}
    (h : ListSem (.lazyAny :: ts) caps caps' consumed) :
    ∃ w c2, consumed = w ++ c2 ∧ ListSem ts caps caps' c2 := by
  cases h with
  | @cons _ _ _ mid _ chunk tail htok hrest =>
    cases htok with
    | lazyAny => exact ⟨chunk, tail, rfl, hrest⟩

theorem semGroupLazy {i : Nat} {ts : List Tok} {caps caps' : Caps} {consumed : List Char}
    (h : ListSem (.groupLazyAcc i [] :: ts) caps caps' consumed) :
    ∃ w c2, consumed = w ++ c2 ∧ ListSem ts (setCap i w caps) caps' c2 := by
  cases h with
  | @cons _ _ _ mid _ chunk tail htok hrest =>
    cases htok with
    | groupLazyAcc => exact ⟨chunk, tail, rfl, by simpa using hrest⟩

theorem semGroupPlus {i : Nat} {f : Char → Bool} {ts : List Tok} {caps caps' : Caps}
    {consumed : List Char}
    (h : ListSem (.groupPlus i f :: ts) caps caps' consumed) :
    ∃ w c2, w ≠ [] ∧ (∀ c ∈ w, f c = true) ∧ consumed = w ++ c2 ∧
      ListSem ts (setCap i w caps) caps' c2 := by
  cases h with
  | @cons _ _ _ mid _ chunk tail htok hrest =>
    cases htok with
    | groupPlus hne hall => exact ⟨chunk, tail, hne, hall, rfl, hrest⟩

theorem semBackref {i : Nat} {ts : List Tok} {caps caps' : Caps} {consumed : List Char}
    (h : ListSem (.backref i :: ts) caps caps' consumed) :
    ∃ w c2, caps i = some w ∧ consumed = w ++ c2 ∧ ListSem ts caps caps' c2 := by
  cases h with
  | @cons _ _ _ mid _ chunk tail htok hrest =>
    cases htok with
    | backref hw => exact ⟨chunk, tail, hw, rfl, hrest⟩

/-- A nonempty run of whitespace (what `\s+` consumes). -/
def PySpaces (w : List Char) : Prop :=
  w ≠ [] ∧ ∀ c ∈ w, isPySpace c = true

/-- The full shape the primary pattern requires of a matched span: the
container boundary `<div class="teacher" ...> ... </div>`, a name
sub-block, a title sub-block, and a mailto link whose displayed link text
(the run between `>` and `</a>`) is exactly the email `e` captured from
the `mailto:` target — the back-reference constraint. -/
def TeacherShape (span n t e : List Char) : Prop :=
  ∃ (ws1 ws2 ws3 ws4 a1 a2 a3 a4 b1 b2 b3 b4 : List Char) (q1 q2 q3 q4 q5 q6 q7 q8 : Char),
    PySpaces ws1 ∧ PySpaces ws2 ∧ PySpaces ws3 ∧ PySpaces ws4 ∧
    isQuote q1 = true ∧ isQuote q2 = true ∧ isQuote q3 = true ∧ isQuote q4 = true ∧
    isQuote q5 = true ∧ isQuote q6 = true ∧ isQuote q7 = true ∧ isQuote q8 = true ∧
    e ≠ [] ∧ (∀ c ∈ e, isNonQuote c = true) ∧
    span = "<div".data ++ ws1 ++ "class=".data ++ q1 :: "teacher".data ++ q2 :: a1 ++
      '>' :: b1 ++ "<p".data ++ ws2 ++ "class=".data ++ q3 :: "name".data ++ q4 :: a2 ++
      '>' :: n ++ "</p>".data ++ b2 ++
      "<p".data ++ ws3 ++ "class=".data ++ q5 :: "title".data ++ q6 :: a3 ++
      '>' :: t ++ "</p>".data ++ b3 ++
      "<a".data ++ ws4 ++ "href=".data ++ q7 :: "mailto:".data ++ e ++ q8 :: a4 ++
      '>' :: e ++ "</a>".data ++ b4 ++ "</div>".data

/-- Every record produced by the primary pattern comes from a span of the
input realizing the full teacher-container shape, and the record is the
normalization of exactly the three groups captured there. -/
theorem primaryRecords_shape :
    ∀ (html : String) (r : Record), r ∈ primaryRecords html →
      ∃ pre span post n t e,
        html.data = pre ++ (span ++ post) ∧
        TeacherShape span n t e ∧
        r = mkRecord n t e := by
  intro html r hr
  simp only [primaryRecords, List.mem_filterMap] at hr
  obtain ⟨capsM, hmem, hcr⟩ := hr
  obtain ⟨preS, sfx, restM, hsfx, hrun⟩ := findAllF_mem _ teacherToks html.data capsM hmem
  obtain ⟨consumed, hcons, hsem⟩ :=
    matchToksF_sound _ teacherToks sfx capsEmpty capsM restM hrun
  obtain ⟨c1, hc0, hsem⟩ := semLits (u := "<div") hsem
  obtain ⟨ws1, c2, hws1ne, hws1, hc1, hsem⟩ := semPlusG hsem
  obtain ⟨c3, hc2, hsem⟩ := semLits (u := "class=") hsem
  obtain ⟨q1, c4, hq1, hc3, hsem⟩ := semCls hsem
  obtain ⟨c5, hc4, hsem⟩ := semLits (u := "teacher") hsem
  obtain ⟨q2, c6, hq2, hc5, hsem⟩ := semCls hsem
  obtain ⟨a1, c7, hc6, hsem⟩ := semLazy hsem
  obtain ⟨c8, hc7, hsem⟩ := semLit hsem
  obtain ⟨b1, c9, hc8, hsem⟩ := semLazy hsem
  obtain ⟨c10, hc9, hsem⟩ := semLits (u := "<p") hsem
  obtain ⟨ws2, c11, hws2ne, hws2, hc10, hsem⟩ := semPlusG hsem
  obtain ⟨c12, hc11, hsem⟩ := semLits (u := "class=") hsem
  obtain ⟨q3, c13, hq3, hc12, hsem⟩ := semCls hsem
  obtain ⟨c14, hc13, hsem⟩ := semLits (u := "name") hsem
  obtain ⟨q4, c15, hq4, hc14, hsem⟩ := semCls hsem
  obtain ⟨a2, c16, hc15, hsem⟩ := semLazy hsem
  obtain ⟨c17, hc16, hsem⟩ := semLit hsem
  obtain ⟨n, c18, hc17, hsem⟩ := semGroupLazy hsem
  obtain ⟨c19, hc18, hsem⟩ := semLits (u := "</p>") hsem
  obtain ⟨b2, c20, hc19, hsem⟩ := semLazy hsem
  obtain ⟨c21, hc20, hsem⟩ := semLits (u := "<p") hsem
  obtain ⟨ws3, c22, hws3ne, hws3, hc21, hsem⟩ := semPlusG hsem
  obtain ⟨c23, hc22, hsem⟩ := semLits (u := "class=") hsem
  obtain ⟨q5, c24, hq5, hc23, hsem⟩ := semCls hsem
  obtain ⟨c25, hc24, hsem⟩ := semLits (u := "title") hsem
  obtain ⟨q6, c26, hq6, hc25, hsem⟩ := semCls hsem
  obtain ⟨a3, c27, hc26, hsem⟩ := semLazy hsem
  obtain ⟨c28, hc27, hsem⟩ := semLit hsem
  obtain ⟨t, c29, hc28, hsem⟩ := semGroupLazy hsem
  obtain ⟨c30, hc29, hsem⟩ := semLits (u := "</p>") hsem
  obtain ⟨b3, c31, hc30, hsem⟩ := semLazy hsem
  obtain ⟨c32, hc31, hsem⟩ := semLits (u := "<a") hsem
  obtain ⟨ws4, c33, hws4ne, hws4, hc32, hsem⟩ := semPlusG hsem
  obtain ⟨c34, hc33, hsem⟩ := semLits (u := "href=") hsem
  obtain ⟨q7, c35, hq7, hc34, hsem⟩ := semCls hsem
  obtain ⟨c36, hc35, hsem⟩ := semLits (u := "mailto:") hsem
  obtain ⟨e, c37, hene, hech, hc36, hsem⟩ := semGroupPlus hsem
  obtain ⟨q8, c38, hq8, hc37, hsem⟩ := semCls hsem
  obtain ⟨a4, c39, hc38, hsem⟩ := semLazy hsem
  obtain ⟨c40, hc39, hsem⟩ := semLit hsem
  obtain ⟨w, c41, hw, hc40, hsem⟩ := semBackref hsem
  obtain ⟨c42, hc41, hsem⟩ := semLits (u := "</a>") hsem
  obtain ⟨b4, c43, hc42, hsem⟩ := semLazy hsem
  obtain ⟨c44, hc43, hsem⟩ := semLits (u := "</div>") hsem
  obtain ⟨hcapsM, hc44⟩ := semNil hsem
  have hwe : w = e := by
    simp only [setCap] at hw
    simpa using hw.symm
  rw [hwe] at hc40
  have hrrec : r = mkRecord n t e := by
    rw [hcapsM] at hcr
    simp only [capsToRecord, setCap, capsEmpty] at hcr
    simp at hcr
    exact hcr.symm
  refine ⟨preS, consumed, restM, n, t, e, by rw [hsfx, hcons], ?_, hrrec⟩
  refine ⟨ws1, ws2, ws3, ws4, a1, a2, a3, a4, b1, b2, b3, b4,
    q1, q2, q3, q4, q5, q6, q7, q8,
    ⟨hws1ne, hws1⟩, ⟨hws2ne, hws2⟩, ⟨hws3ne, hws3⟩, ⟨hws4ne, hws4⟩,
    hq1, hq2, hq3, hq4, hq5, hq6, hq7, hq8, hene, hech, ?_⟩
  subst hc44 hc43 hc42 hc41 hc40 hc39 hc38 hc37 hc36 hc35 hc34 hc33 hc32 hc31
  subst hc30 hc29 hc28 hc27 hc26 hc25 hc24 hc23 hc22 hc21 hc20 hc19 hc18 hc17
  subst hc16 hc15 hc14 hc13 hc12 hc11 hc10 hc9 hc8 hc7 hc6 hc5 hc4 hc3 hc2 hc1 hc0
  simp

/-! ## The SQLite store (`setup_database`, `save_to_database`)

The `contacts` table has columns `(iid INTEGER PRIMARY KEY AUTOINCREMENT,
name TEXT NOT NULL, title TEXT NOT NULL, email TEXT NOT NULL UNIQUE)`.
`DB` models its content: the rows in insertion order with their
auto-increment ids.  An `INSERT` of a row whose email is already present
violates the `UNIQUE` constraint and raises `sqlite3.IntegrityError`,
which the loop body of `save_to_database` catches and ignores. -/

structure DB where
  rows : List (Nat × Record)
  nextId : Nat
deriving DecidableEq, Repr

/-- One iteration of the insert loop of `save_to_database`: attempt the
`INSERT`; on an `IntegrityError` (duplicate email) skip the record. -/
def insertRecord (db : DB) (r : Record) : DB :=
  if db.rows.any (fun row => row.2.email == r.email) then db
  else { rows := db.rows ++ [(db.nextId, r)], nextId := db.nextId + 1 }

/-- The data semantics of `save_to_database` (source lines 34-57) on its
success path: each record is attempted in order. -/
def save_to_database (contacts : List Record) (db : DB) : DB :=
  contacts.foldl insertRecord db

/-- The number of stored contacts holding a given email. -/
def countEmail (db : DB) (e : String) : Nat :=
  (db.rows.filter (fun row => row.2.email == e)).length

/-! ## The GUI flow (`scrape_contacts`, `fetch_contacts`)

The notification surface is `tkinter.messagebox`; each dialog call is
recorded as a `Notif`.  The single `requests.get(url, timeout=10)` call is
abstracted by an outcome function `net : String → Nat → HttpOutcome`
giving, for each url and timeout, what the GET did; the exception taxonomy
of `requests` is the constructors of `HttpOutcome`. -/

inductive NotifKind where
  | warning
  | info
  | error
deriving DecidableEq, Repr

/-- One `messagebox` dialog: kind, title, message. -/
structure Notif where
  kind : NotifKind
  title : String
  msg : String
deriving DecidableEq, Repr

/-- What the single GET did: a 2xx response with body text (so
`raise_for_status` is a no-op), or one of the `requests` exceptions
distinguished by `scrape_contacts` — `HTTPError` (4xx/5xx status, raised
by `raise_for_status`), `ConnectionError`, `Timeout`, or any other
`RequestException`.  The `detail` carries the exception's text used in the
formatted message. -/
inductive HttpOutcome where
  | success (body : String)
  | httpError (detail : String)
  | connError
  | timeout
  | otherError (detail : String)
deriving DecidableEq, Repr

/-- `scrape_contacts` (source lines 109-129): issue one GET with
`timeout=10`, raise on error status, parse on success; each exception
class is reported with its own error dialog and `None` is returned.  The
first component records the GET requests issued (url, timeout). -/
def scrape_contacts (url : String) (net : String → Nat → HttpOutcome) :
    List (String × Nat) × Option (List Record) × List Notif :=
  match net url 10 with
  | .success body => ([(url, 10)], some (parse_contacts body), [])
  | .httpError d => ([(url, 10)], none, [⟨.error, "HTTP錯誤", "HTTP 錯誤發生: " ++ d⟩])
  | .connError => ([(url, 10)], none, [⟨.error, "連線錯誤", "無法連接到網路。"⟩])
  | .timeout => ([(url, 10)], none, [⟨.error, "逾時錯誤", "請求超時。"⟩])
  | .otherError d => ([(url, 10)], none, [⟨.error, "請求錯誤", "請求時發生錯誤: " ++ d⟩])

/-- The mutable state the handler touches: the Treeview rows and the
database content. -/
structure AppState where
  tree : List Record
  db : DB
deriving DecidableEq, Repr

/-- `ContactApp.fetch_contacts` (source lines 195-216) as a state
transition.  Returns the new state, the dialogs shown (in order), and the
GET requests issued.  Mirrors the source: strip the url; warn and return
if empty; scrape; on `None` return (the error dialog was already shown);
on a nonempty list clear the Treeview, insert the records, save them and
show the success dialog; on an empty list only show the info dialog (the
Treeview is not touched). -/
def fetch_contacts (input : String) (net : String → Nat → HttpOutcome) (st : AppState) :
    AppState × List Notif × List (String × Nat) :=
  let url := stripStr input
  if url = "" then
    (st, [⟨.warning, "輸入錯誤", "請輸入有效的 URL。"⟩], [])
  else
    match scrape_contacts url net with
    | (reqs, some contacts, notifs) =>
      if contacts = [] then
        (st, notifs ++ [⟨.info, "結果", "未抓取到任何聯絡資訊。"⟩], reqs)
      else
        ({ tree := contacts, db := save_to_database contacts st.db },
          notifs ++ [⟨.info, "成功", "聯絡資訊已成功抓取並存入資料庫。"⟩], reqs)
    | (reqs, none, notifs) => (st, notifs, reqs)

/-! ## Control flow of the store functions (`try`/`except`/`finally`)

`setup_database` and `save_to_database` share this shape:

```
try:
    conn = sqlite3.connect(db_name)   # may raise sqlite3.Error
    ...                               # may raise sqlite3.Error
except sqlite3.Error as e:
    messagebox.showerror("資料庫錯誤", ...)
finally:
    conn.close()
```

Python semantics embedded here: if the `try` body raises `sqlite3.Error`,
the handler shows the dialog, then the `finally` block runs.  If
`sqlite3.connect` itself raised, the local `conn` was never bound, so
`conn.close()` in `finally` raises `UnboundLocalError`, which propagates
out of the function; otherwise `conn.close()` closes the connection and
the function returns normally.  `connectOk` states whether
`sqlite3.connect` succeeded, `bodyOk` whether the rest of the `try` body
(execute/commit) succeeded. -/

structure StoreCallResult where
  /-- the dialogs shown by the call -/
  notifs : List Notif
  /-- the exception escaping the call, if any -/
  escaped : Option String
  /-- whether `conn.close()` was executed -/
  connClosed : Bool
deriving DecidableEq, Repr

/-- Control flow of one `setup_database` call (source lines 10-31). -/
def setup_database_run (connectOk bodyOk : Bool) : StoreCallResult :=
  if connectOk then
    if bodyOk then
      { notifs := [], escaped := none, connClosed := true }
    else
      { notifs := [⟨.error, "資料庫錯誤", "初始化資料庫時發生錯誤"⟩],
        escaped := none, connClosed := true }
  else
    { notifs := [⟨.error, "資料庫錯誤", "初始化資料庫時發生錯誤"⟩],
      escaped := some "UnboundLocalError", connClosed := false }

/-- Control flow of one `save_to_database` call (source lines 34-57).
A duplicate-email `IntegrityError` is caught by the inner `try` inside the
loop and never reaches this level; `bodyOk` covers the other statements of
the `try` body (cursor, inserts, commit). -/
def save_to_database_run (connectOk bodyOk : Bool) : StoreCallResult :=
  if connectOk then
    if bodyOk then
      { notifs := [], escaped := none, connClosed := true }
    else
      { notifs := [⟨.error, "資料庫錯誤", "存入資料庫時發生錯誤"⟩],
        escaped := none, connClosed := true }
  else
    { notifs := [⟨.error, "資料庫錯誤", "存入資料庫時發生錯誤"⟩],
      escaped := some "UnboundLocalError", connClosed := false }

set_option maxRecDepth 100000

/-! ## Concrete inputs used by witnesses and counterexamples -/

/-- One well-formed teacher container. -/
def exTeacher : String :=
  "<div class=\"teacher\"><p class=\"name\">Alice</p><p class=\"title\">Prof</p><a href=\"mailto:a@x.edu\">a@x.edu</a></div>"

/-- Two adjacent teacher containers. -/
def exTwo : String :=
  "<div class=\"teacher\"><p class=\"name\">Alice</p><p class=\"title\">Prof</p><a href=\"mailto:a@x.edu\">a@x.edu</a></div><div class=\"teacher\"><p class=\"name\">Bob</p><p class=\"title\">TA</p><a href=\"mailto:b@x.edu\">b@x.edu</a></div>"

/-- A teacher container whose `class` attribute comes second (after `id`). -/
def exIdFirst : String :=
  "<div id=\"t1\" class=\"teacher\"><p class=\"name\">A</p><p class=\"title\">B</p><a href=\"mailto:a@b\">a@b</a></div>"

/-- The same container with `class` first and `id` second. -/
def exClassFirst : String :=
  "<div class=\"teacher\" id=\"t1\"><p class=\"name\">A</p><p class=\"title\">B</p><a href=\"mailto:a@b\">a@b</a></div>"

/-- A container with an extra attribute after `class` and multi-line
content. -/
def exMulti : String :=
  "<div class=\"teacher\" id=\"t1\">\n<p class=\"name\">A</p>\n<p class=\"title\">B</p>\n<a href=\"mailto:a@b\">a@b</a>\n</div>"

/-- The spec's tabular-fallback test input: no teacher container, one
3-cell row `(\"C\",\"Staff\",\"c@x.edu\")`. -/
def exTab : String :=
  "<table><tr><td>C</td><td>Staff</td><td><a href=\"mailto:c@x.edu\">mail</a></td></tr></table>"

/-- A table with two 3-cell rows. -/
def exTab2 : String :=
  "<table><tr><td>C</td><td>Staff</td><td><a href=\"mailto:c@x.edu\">mail</a></td></tr><tr><td>D</td><td>Dean</td><td><a href=\"mailto:d@x.edu\">mail</a></td></tr></table>"

/-- A store holding one contact with email `e@x`. -/
def dbOne : DB := ⟨[(1, ⟨"A", "B", "e@x"⟩)], 2⟩

/-! ## Claims -/

/-- C1: for every markup input the fallback (tabular) pattern is applied
if and only if the primary (teacher-container) pattern yields zero
records: when the primary produced at least one record `parse_contacts`
returns exactly the primary records, and when it produced none it returns
exactly the fallback records — the result comes from exactly one of the
two patterns per invocation. -/
theorem parse_contacts_fallback_exclusive (html : String) :
    (primaryRecords html = [] → parse_contacts html = tableRecords html) ∧
    (primaryRecords html ≠ [] → parse_contacts html = primaryRecords html) := by
  constructor
  · intro h
    simp [parse_contacts, h]
  · intro h
    simp [parse_contacts, h]

theorem parse_contacts_fallback_exclusive_witness :
    parse_contacts exTab = tableRecords exTab ∧
    parse_contacts exTeacher = primaryRecords exTeacher :=
  ⟨(parse_contacts_fallback_exclusive exTab).1 (by decide),
   (parse_contacts_fallback_exclusive exTeacher).2 (by decide)⟩

/-- C2: no field of a record returned by `parse_contacts` is the empty
string; every field is trimmed of leading and trailing whitespace (it is a
fixed point of `stripStr`), and every record is `mkRecord` of raw captures
— i.e. each field is the stripped capture, or the sentinel `"N/A"` when
the capture is blank after stripping. -/
theorem parse_contacts_fields_normalized :
    ∀ (html : String) (r : Record), r ∈ parse_contacts html →
      (r.name ≠ "" ∧ r.title ≠ "" ∧ r.email ≠ "") ∧
      (stripStr r.name = r.name ∧ stripStr r.title = r.title ∧ stripStr r.email = r.email) ∧
      ∃ n t e : List Char, r = mkRecord n t e := by
  intro html r hr
  obtain ⟨caps, hc⟩ := parse_contacts_mem html r hr
  obtain ⟨n, t, e, -, -, -, hre⟩ := capsToRecord_eq caps r hc
  subst hre
  exact ⟨⟨normField_ne_empty n, normField_ne_empty t, normField_ne_empty e⟩,
    ⟨stripStr_normField n, stripStr_normField t, stripStr_normField e⟩, n, t, e, rfl⟩

theorem parse_contacts_fields_normalized_witness :
    (⟨"Alice", "Prof", "a@x.edu"⟩ : Record) ∈ parse_contacts exTeacher ∧
    (((⟨"Alice", "Prof", "a@x.edu"⟩ : Record).name ≠ "" ∧
      (⟨"Alice", "Prof", "a@x.edu"⟩ : Record).title ≠ "" ∧
      (⟨"Alice", "Prof", "a@x.edu"⟩ : Record).email ≠ "") ∧
     (stripStr (⟨"Alice", "Prof", "a@x.edu"⟩ : Record).name =
        (⟨"Alice", "Prof", "a@x.edu"⟩ : Record).name ∧
      stripStr (⟨"Alice", "Prof", "a@x.edu"⟩ : Record).title =
        (⟨"Alice", "Prof", "a@x.edu"⟩ : Record).title ∧
      stripStr (⟨"Alice", "Prof", "a@x.edu"⟩ : Record).email =
        (⟨"Alice", "Prof", "a@x.edu"⟩ : Record).email) ∧
     ∃ n t e : List Char, (⟨"Alice", "Prof", "a@x.edu"⟩ : Record) = mkRecord n t e) :=
  ⟨by decide, parse_contacts_fields_normalized exTeacher ⟨"Alice", "Prof", "a@x.edu"⟩ (by decide)⟩

/-- C3: every record the primary pattern yields comes from a span of the
input realizing the complete teacher-container shape — boundary, name
sub-block, title sub-block, and a mailto link whose displayed link text is
exactly the email captured from its target (`TeacherShape` repeats the
same `e` in both positions) — and the record is exactly the normalization
of the three groups captured there: a container with a malformed or
absent email link yields nothing, and partial field capture cannot
occur. -/
theorem primaryRecords_full_shape :
    ∀ (html : String) (r : Record), r ∈ primaryRecords html →
      ∃ pre span post n t e,
        html.data = pre ++ (span ++ post) ∧
        TeacherShape span n t e ∧
        r = mkRecord n t e :=
  primaryRecords_shape

theorem primaryRecords_full_shape_witness :
    (⟨"Alice", "Prof", "a@x.edu"⟩ : Record) ∈ primaryRecords exTeacher ∧
    ∃ pre span post n t e,
      exTeacher.data = pre ++ (span ++ post) ∧
      TeacherShape span n t e ∧
      (⟨"Alice", "Prof", "a@x.edu"⟩ : Record) = mkRecord n t e :=
  ⟨by decide, primaryRecords_full_shape exTeacher ⟨"Alice", "Prof", "a@x.edu"⟩ (by decide)⟩

/-- C4 counterexample: attribute order is NOT tolerated.  `exIdFirst` and
`exClassFirst` are identical containers except for the order of the `id`
and `class` attributes of the `<div>` tag; with `class` second the
primary pattern matches nothing (and the whole extraction returns `[]`),
while with `class` first it yields the record. -/
theorem primary_attr_order_cex :
    primaryRecords exIdFirst = [] ∧
    parse_contacts exIdFirst = [] ∧
    primaryRecords exClassFirst = [⟨"A", "B", "a@b"⟩] := by decide

/-- C4 amended: the `class` attribute must be the first attribute of its
tag (only whitespace may separate it from the tag name), but additional
attributes after the class attribute are tolerated, matching is
multi-line (dot matches newline), and the non-greedy spans keep one match
from spanning two containers: two adjacent containers yield two separate
records. -/
theorem primary_attr_order_amended :
    parse_contacts exMulti = [⟨"A", "B", "a@b"⟩] ∧
    parse_contacts exTwo = [⟨"Alice", "Prof", "a@x.edu"⟩, ⟨"Bob", "TA", "b@x.edu"⟩] := by
  decide

/-- C5: when the primary pattern yields zero records the fallback
interprets the markup as rows of cells (first cell name, second title,
third a mailto reference), one record per such row: the spec's test input
with one 3-cell row yields exactly `{"C","Staff","c@x.edu"}`, and a
two-row table yields exactly the two records in row order. -/
theorem tableRecords_fallback :
    primaryRecords exTab = [] ∧
    parse_contacts exTab = [⟨"C", "Staff", "c@x.edu"⟩] ∧
    primaryRecords exTab2 = [] ∧
    parse_contacts exTab2 = [⟨"C", "Staff", "c@x.edu"⟩, ⟨"D", "Dean", "d@x.edu"⟩] := by
  decide

/-- C6: `save_to_database` attempts an insert for each record in order; a
uniqueness violation on `email` skips only that record and the rest of the
batch proceeds (first conjunct: the loop always continues with the tail;
no dialog is shown and nothing escapes when the store works); persisting a
record whose email is already stored (uniquely) leaves the store
completely unchanged, so exactly one stored contact with that email
remains. -/
theorem save_to_database_dup_skip (db : DB) (r : Record) (rs : List Record)
    (h : countEmail db r.email = 1) :
    (∀ (db2 : DB) (r2 : Record) (rs2 : List Record),
      save_to_database (r2 :: rs2) db2 = save_to_database rs2 (insertRecord db2 r2)) ∧
    save_to_database (r :: rs) db = save_to_database rs db ∧
    save_to_database [r] db = db ∧
    countEmail (save_to_database [r] db) r.email = 1 ∧
    (save_to_database_run true true).notifs = [] ∧
    (save_to_database_run true true).escaped = none := by
  have hins : insertRecord db r = db := by
    have hany : db.rows.any (fun row => row.2.email == r.email) = true := by
      rcases hfe : db.rows.filter (fun row => row.2.email == r.email) with _ | ⟨x, xs⟩
      · simp [countEmail, hfe] at h
      · have hx : x ∈ db.rows.filter (fun row => row.2.email == r.email) := by
          rw [hfe]
          exact List.mem_cons_self x xs
        rw [List.any_eq_true]
        exact ⟨x, (List.mem_filter.mp hx).1, (List.mem_filter.mp hx).2⟩
    simp [insertRecord, hany]
  refine ⟨fun db2 r2 rs2 => rfl, ?_, ?_, ?_, rfl, rfl⟩
  · show List.foldl insertRecord (insertRecord db r) rs = save_to_database rs db
    rw [hins]
    rfl
  · show List.foldl insertRecord (insertRecord db r) [] = db
    rw [hins]
    rfl
  · show countEmail (List.foldl insertRecord (insertRecord db r) []) r.email = 1
    rw [hins]
    exact h

theorem save_to_database_dup_skip_witness :
    countEmail dbOne (Record.mk "A2" "B2" "e@x").email = 1 ∧
    save_to_database [Record.mk "A2" "B2" "e@x"] dbOne = dbOne :=
  ⟨by decide, (save_to_database_dup_skip dbOne (Record.mk "A2" "B2" "e@x") [] (by decide)).2.2.1⟩

/-- C7 counterexample: when extraction succeeds with zero records the
handler shows the informational dialog but does NOT clear the Treeview:
starting from a display holding one row, after the fetch the display
still holds that row — it is not left empty as the claim states. -/
theorem fetch_contacts_empty_not_cleared_cex :
    fetch_contacts "http://x" (fun _ _ => .success "") ⟨[⟨"Old", "Row", "o@x"⟩], ⟨[], 1⟩⟩ =
      (⟨[⟨"Old", "Row", "o@x"⟩], ⟨[], 1⟩⟩,
       [⟨.info, "結果", "未抓取到任何聯絡資訊。"⟩], [("http://x", 10)]) ∧
    ([⟨"Old", "Row", "o@x"⟩] : List Record) ≠ [] := by decide

/-- C7 amended: when extraction succeeds but yields zero records, the flow
shows exactly one informational notification (not an error or warning),
nothing is persisted, and the display is left UNCHANGED — whatever rows it
held before remain (in particular it is not cleared). -/
theorem fetch_contacts_empty_info (input : String) (net : String → Nat → HttpOutcome)
    (st : AppState) (body : String)
    (hurl : stripStr input ≠ "")
    (hnet : net (stripStr input) 10 = .success body)
    (hparse : parse_contacts body = []) :
    fetch_contacts input net st =
      (st, [⟨.info, "結果", "未抓取到任何聯絡資訊。"⟩], [(stripStr input, 10)]) := by
  simp only [fetch_contacts]
  rw [if_neg hurl]
  simp only [scrape_contacts, hnet, hparse]
  simp

theorem fetch_contacts_empty_info_witness :
    stripStr "http://x" ≠ "" ∧
    fetch_contacts "http://x" (fun _ _ => .success "") ⟨[⟨"Old", "Row", "o@x"⟩], ⟨[], 1⟩⟩ =
      (⟨[⟨"Old", "Row", "o@x"⟩], ⟨[], 1⟩⟩,
       [⟨.info, "結果", "未抓取到任何聯絡資訊。"⟩], [(stripStr "http://x", 10)]) :=
  ⟨by decide,
   fetch_contacts_empty_info "http://x" (fun _ _ => .success "")
     ⟨[⟨"Old", "Row", "o@x"⟩], ⟨[], 1⟩⟩ "" (by decide) rfl (by decide)⟩

/-- C8: the claim states that a store-level failure is reported and the
call returns normally with the connection released on every exit path.
This holds for failures after a successful connect, but when
`sqlite3.connect` itself raises, `conn` is never bound and the `finally`
clause's `conn.close()` raises `UnboundLocalError`, which escapes the
function after the error dialog — the code contradicts the claim on this
path (and there is no connection release). -/
theorem store_connect_failure_escapes :
    (setup_database_run false true).escaped = some "UnboundLocalError" ∧
    (setup_database_run false true).connClosed = false ∧
    (save_to_database_run false true).escaped = some "UnboundLocalError" ∧
    (save_to_database_run false true).connClosed = false ∧
    (setup_database_run true false).escaped = none ∧
    (setup_database_run true false).connClosed = true ∧
    (save_to_database_run true false).escaped = none ∧
    (save_to_database_run true false).connClosed = true := by decide

/-- C9: `scrape_contacts` issues exactly one GET with timeout 10 and no
retries; each failure kind of the GET is reported with its own dialog
title (the four titles are pairwise distinct) and `None` is returned,
while a success returns the parsed records with no dialog. -/
theorem scrape_contacts_classification (url : String) (net : String → Nat → HttpOutcome) :
    (scrape_contacts url net).1 = [(url, 10)] ∧
    (match net url 10 with
     | .success body => (scrape_contacts url net).2 = (some (parse_contacts body), [])
     | .httpError d => (scrape_contacts url net).2 =
         (none, [⟨.error, "HTTP錯誤", "HTTP 錯誤發生: " ++ d⟩])
     | .connError => (scrape_contacts url net).2 =
         (none, [⟨.error, "連線錯誤", "無法連接到網路。"⟩])
     | .timeout => (scrape_contacts url net).2 =
         (none, [⟨.error, "逾時錯誤", "請求超時。"⟩])
     | .otherError d => (scrape_contacts url net).2 =
         (none, [⟨.error, "請求錯誤", "請求時發生錯誤: " ++ d⟩])) ∧
    (["HTTP錯誤", "連線錯誤", "逾時錯誤", "請求錯誤"] : List String).Nodup := by
  refine ⟨?_, ?_, by decide⟩
  · cases hn : net url 10 <;> simp [scrape_contacts, hn]
  · cases hn : net url 10 <;> simp [scrape_contacts, hn]

/-- C10: the url entered by the user is stripped before the emptiness
check, so a whitespace-only url behaves exactly like an empty one: one
warning dialog, no GET issued, and the display and store unchanged. -/
theorem fetch_contacts_blank_url (input : String) (net : String → Nat → HttpOutcome)
    (st : AppState) (h : stripStr input = "") :
    fetch_contacts input net st =
      (st, [⟨.warning, "輸入錯誤", "請輸入有效的 URL。"⟩], []) := by
  simp only [fetch_contacts]
  rw [if_pos h]

theorem fetch_contacts_blank_url_witness :
    fetch_contacts "   " (fun _ _ => .connError) ⟨[⟨"Old", "Row", "o@x"⟩], dbOne⟩ =
      (⟨[⟨"Old", "Row", "o@x"⟩], dbOne⟩,
       [⟨.warning, "輸入錯誤", "請輸入有效的 URL。"⟩], []) :=
  fetch_contacts_blank_url "   " (fun _ _ => .connError) ⟨[⟨"Old", "Row", "o@x"⟩], dbOne⟩
    (by decide)
